import Mathlib

/-!
# npm-login-cli: the login check and the `.npmrc` rewrite of `main.go`

A shallow embedding of `func main()` of `main.go`.

* A Go `string` is a finite sequence of units; it is modelled as `List Char`
  (`Str`).  The four functions of package `strings` that `main` calls are
  modelled in namespace `strings`; they only compare units for equality, so
  they do not depend on what a unit is.
* The standard-library calls with an effect or with a behaviour that is not
  part of this repository (`json.Marshal`, `http.NewRequest`, `client.Do`,
  `json.Unmarshal`, `url.Parse`, `os.Stat`, `filepath.Join`, `os.ReadFile`,
  `os.WriteFile`, the `%v` verb) are fields of a record `Sys`; the file-system
  state is passed explicitly.
* `main` is split along the comments of the source into `receive`
  (lines 25-70), `checkResponse` (72-83), `ConfigUpdater` (111-138, the text
  transformation) and `main` itself, which threads the file system.
-/

/-- A Go `string`. -/
abbrev Str := List Char

namespace strings

/-- `strings.Split(s, sep)` for a separator of one unit: the pieces of `s`
between the occurrences of `sep`; a string without `sep` is one piece, the
empty string included. -/
def Split : Str → Char → List Str
  | [], _ => [[]]
  | c :: cs, sep =>
    if c = sep then [] :: Split cs sep
    else match Split cs sep with
      | [] => [[c]]
      | l :: ls => (c :: l) :: ls

/-- `strings.HasPrefix(s, pre)`. -/
def HasPrefix (s pre : Str) : Bool := pre.isPrefixOf s

/-- `strings.Contains(s, substr)`: `substr` starts at some position of `s`. -/
def Contains (s substr : Str) : Bool := s.tails.any (fun t => substr.isPrefixOf t)

/-- `strings.Join(elems, sep)`. -/
def Join (elems : List Str) (sep : Str) : Str := sep.intercalate elems

end strings

namespace NpmLogin

open strings

/-! ## The configuration rewrite (main.go lines 96, 111-138) -/

/-- Line 118: `fmt.Sprintf("//%s/:_authToken=", registryHost)`. -/
def authPrefix (registryHost : Str) : Str :=
  "//".data ++ registryHost ++ "/:_authToken=".data

/-- Line 96: `fmt.Sprintf("//%s/:_authToken=%s", registryHost, token)`. -/
def npmrcEntry (registryHost token : Str) : Str :=
  "//".data ++ registryHost ++ "/:_authToken=".data ++ token

/-- Line 114: `fmt.Sprintf("registry=%s", *registry)`. -/
def registryEntry (registry : Str) : Str := "registry=".data ++ registry

/-- The loop of lines 117-125 over the remaining lines, `entryExists` being
the flag on entry.  Both tests read `line`, the element as it was before the
iteration; the second assignment, when it fires, overwrites the first. -/
def scan (registryHost token registry : Str) (useRegistry : Bool) :
    List Str → Bool → List Str × Bool
  | [], entryExists => ([], entryExists)
  | line :: rest, entryExists =>
    let hit := HasPrefix line (authPrefix registryHost)
    let line1 := if hit then npmrcEntry registryHost token else line
    let entryExists1 := if hit then true else entryExists
    let line2 :=
      if useRegistry && HasPrefix line "registry=".data then registryEntry registry else line1
    let r := scan registryHost token registry useRegistry rest entryExists1
    (line2 :: r.1, r.2)

/-- Lines 127-130: the lines after the loop and the possible append of the
auth-token line. -/
def withAuth (registryHost token registry : Str) (useRegistry : Bool) (lines : List Str) :
    List Str :=
  let r := scan registryHost token registry useRegistry lines false
  if !r.2 then r.1 ++ [npmrcEntry registryHost token] else r.1

/-- Lines 113-135: the slice `lines` that line 138 joins. -/
def updateLines (registryHost token registry : Str) (useRegistry : Bool) (lines : List Str) :
    List Str :=
  let lines2 := withAuth registryHost token registry useRegistry lines
  if useRegistry && !Contains (Join lines2 "\n".data) (registryEntry registry) then
    lines2 ++ [registryEntry registry]
  else lines2

/-- Lines 112-138: from the text read to the text written. -/
def ConfigUpdater (registryHost token registry : Str) (useRegistry : Bool) (npmrcContent : Str) :
    Str :=
  Join (updateLines registryHost token registry useRegistry (Split npmrcContent '\n')) "\n".data

/-! ### Two descriptions used in the statements -/

/-- The line the loop of lines 117-125 leaves at an index that held `line`. -/
def scanLine (registryHost token registry : Str) (useRegistry : Bool) (line : Str) : Str :=
  if useRegistry && HasPrefix line "registry=".data then registryEntry registry
  else if HasPrefix line (authPrefix registryHost) then npmrcEntry registryHost token
  else line

/-- Whether a line starts with the auth-token prefix of the host. -/
def isAuthLine (registryHost : Str) (line : Str) : Bool :=
  HasPrefix line (authPrefix registryHost)

/-! ## The response check (main.go lines 66-83) -/

/-- What `json.Unmarshal` stores in an `interface{}`: `nil`, `bool`,
`float64`, `string`, `[]interface{}`, `map[string]interface{}`.  A number is
kept as its literal; the program never inspects one. -/
inductive Value where
  | null : Value
  | bool (b : Bool) : Value
  | number (literal : Str) : Value
  | string (s : Str) : Value
  | array (elems : List Value) : Value
  | object (fields : List (Str × Value)) : Value

/-- A `map[string]interface{}`: an association list, read by `index`. -/
abbrev Object := List (Str × Value)

/-- The map index `m[key]`: the value stored, `nil` for an absent key. -/
def index (m : Object) (key : Str) : Value :=
  match m.lookup key with
  | some v => v
  | none => Value.null

/-- The type assertion `v.(string)` in its two-result form: the string and
`true`, or the zero value and `false`. -/
def assertString : Value → Str × Bool
  | Value.string s => (s, true)
  | _ => ([], false)

/-! ## The program (main.go lines 16-145) -/

/-- The command-line flags after `flag.Parse()` (lines 18-23); `npmrc` holds
its default when the flag is not given. -/
structure Flags where
  registry : Str
  username : Str
  password : Str
  npmrc : Str
  useRegistry : Bool

/-- The fields of an `http.Request` the program sets. -/
structure Request where
  method : Str
  url : Str
  body : Str
  header : List (Str × Str)

/-- An `http.Response`: what `io.ReadAll(resp.Body)` returns. -/
structure Response where
  readAll : Except Str Str

/-- The result of `os.ReadFile`: the content, an error for which
`os.IsNotExist` holds, or another error. -/
inductive ReadResult where
  | ok (content : Str) : ReadResult
  | notExist (err : Str) : ReadResult
  | failed (err : Str) : ReadResult

/-- The standard-library calls of `main`, over a file-system state `σ`.  An
error is the text `%v` prints for it.  `stat` answers `some isDir` or `none`
for an error; `writeFile` returns the error, if any, and the state it leaves
(a failed write may have truncated the file). -/
structure Sys (σ : Type) where
  jsonMarshal : Str → Str → Except Str Str
  newRequest : Str → Str → Str → Except Str Request
  clientDo : Request → Except Str Response
  jsonUnmarshal : Str → Except Str Object
  fmtValue : Value → Str
  urlParseHost : Str → Except Str Str
  stat : σ → Str → Option Bool
  filepathJoin : Str → Str → Str
  readFile : σ → Str → ReadResult
  writeFile : σ → Str → Str → Option Str × σ

/-- How a run ends: the exit status, the file system it leaves, the calls of
`os.WriteFile` it made (path and data) and the lines written to standard
output. -/
structure Outcome (σ : Type) where
  exit : Nat
  fs : σ
  writes : List (Str × Str)
  stdout : List Str

/-- `req.Header.Set(key, value)` (line 49). -/
def headerSet (header : List (Str × Str)) (key value : Str) : List (Str × Str) :=
  (key, value) :: header.filter (fun kv => kv.1 != key)

/-- Lines 25-70: validate the flags, send the request, parse the response.
An error carries the lines printed before `os.Exit(1)`. -/
def receive {σ : Type} (sys : Sys σ) (flags : Flags) : Except (List Str) Object :=
  if flags.registry = [] ∨ flags.username = [] ∨ flags.password = [] then
    Except.error ["All flags --registry, --username, and --password are required.".data]
  else
    let requestURL := flags.registry ++ "/-/user/org.couchdb.user:".data ++ flags.username
    match sys.jsonMarshal flags.username flags.password with
    | Except.error err => Except.error ["Error encoding JSON: ".data ++ err]
    | Except.ok jsonBody =>
      match sys.newRequest "PUT".data requestURL jsonBody with
      | Except.error err => Except.error ["Error creating request: ".data ++ err]
      | Except.ok req =>
        let req1 : Request :=
          { method := req.method, url := req.url, body := req.body,
            header := headerSet req.header "Content-Type".data "application/json".data }
        match sys.clientDo req1 with
        | Except.error err => Except.error ["Error sending request: ".data ++ err]
        | Except.ok resp =>
          match resp.readAll with
          | Except.error err => Except.error ["Error reading response: ".data ++ err]
          | Except.ok respBody =>
            match sys.jsonUnmarshal respBody with
            | Except.error err => Except.error ["Error parsing response JSON: ".data ++ err]
            | Except.ok respData => Except.ok respData

/-- Lines 72-83: the token of a parsed response, or the lines printed before
`os.Exit(1)`. -/
def checkResponse {σ : Type} (sys : Sys σ) (respData : Object) : Except (List Str) Str :=
  let r := assertString (index respData "ok".data)
  if !r.2 || r.1 != "true".data then
    Except.error
      ["Login failed.".data, "Response: ".data ++ sys.fmtValue (index respData "ok".data)]
  else
    let t := assertString (index respData "token".data)
    if !t.2 then Except.error ["Token not found in response.".data]
    else Except.ok t.1

/-- Lines 99-102: the file the program reads and writes. -/
def npmrcFilePath {σ : Type} (sys : Sys σ) (fs : σ) (npmrcPath : Str) : Str :=
  if sys.stat fs npmrcPath = some true then sys.filepathJoin npmrcPath ".npmrc".data
  else npmrcPath

/-- Lines 105-112: `string(npmrcContent)`, which is empty when the file does
not exist, or the line printed before `os.Exit(1)`. -/
def readConfig {σ : Type} (sys : Sys σ) (fs : σ) (path : Str) : Except (List Str) Str :=
  match sys.readFile fs path with
  | ReadResult.ok content => Except.ok content
  | ReadResult.notExist _ => Except.ok []
  | ReadResult.failed err => Except.error ["Error reading .npmrc file: ".data ++ err]

/-- The function `main`: a run from the flags and the file system `fs`. -/
def main {σ : Type} (sys : Sys σ) (flags : Flags) (fs : σ) : Outcome σ :=
  match receive sys flags with
  | Except.error out => { exit := 1, fs := fs, writes := [], stdout := out }
  | Except.ok respData =>
    match checkResponse sys respData with
    | Except.error out => { exit := 1, fs := fs, writes := [], stdout := out }
    | Except.ok token =>
      match sys.urlParseHost flags.registry with
      | Except.error err =>
        { exit := 1, fs := fs, writes := [],
          stdout := ["Error parsing registry URL: ".data ++ err] }
      | Except.ok registryHost =>
        let path := npmrcFilePath sys fs flags.npmrc
        match readConfig sys fs path with
        | Except.error out => { exit := 1, fs := fs, writes := [], stdout := out }
        | Except.ok npmrcContent =>
          let data :=
            ConfigUpdater registryHost token flags.registry flags.useRegistry npmrcContent
          match sys.writeFile fs path data with
          | (some err, fs1) =>
            { exit := 1, fs := fs1, writes := [(path, data)],
              stdout := ["Error writing to .npmrc file: ".data ++ err] }
          | (none, fs1) =>
            { exit := 0, fs := fs1, writes := [(path, data)],
              stdout := ["Login successful. Token added to .npmrc.".data] }

/-! ## A sample environment

Files are an association list from path to content; there are no
directories and every call succeeds.  The registry answers every request
with a fixed parsed response, and the host of a registry URL is what follows
its first eight units (`https://`). -/

/-- The sample file system: path and content of each file. -/
abbrev SampleFS := List (Str × Str)

/-- The sample environment whose registry answers `respData`. -/
def sampleSys (respData : Object) : Sys SampleFS where
  jsonMarshal := fun name password => Except.ok (name ++ password)
  newRequest := fun method url body =>
    Except.ok { method := method, url := url, body := body, header := [] }
  clientDo := fun _ => Except.ok { readAll := Except.ok [] }
  jsonUnmarshal := fun _ => Except.ok respData
  fmtValue := fun _ => []
  urlParseHost := fun registry => Except.ok (registry.drop 8)
  stat := fun fs path => if (fs.lookup path).isSome then some false else none
  filepathJoin := fun dir name => dir ++ "/".data ++ name
  readFile := fun fs path =>
    match fs.lookup path with
    | some content => ReadResult.ok content
    | none => ReadResult.notExist "no such file or directory".data
  writeFile := fun fs path data => (none, (path, data) :: fs.filter (fun kv => kv.1 != path))

/-- Sample flags: registry `https://reg.example.com`, file `/home/u/.npmrc`. -/
def sampleFlags : Flags where
  registry := "https://reg.example.com".data
  username := "u".data
  password := "p".data
  npmrc := "/home/u/.npmrc".data
  useRegistry := false

end NpmLogin

/-! # Properties of the string functions -/

namespace strings

theorem Split_ne_nil (s : Str) (sep : Char) : Split s sep ≠ [] := by
  cases s with
  | nil => simp [Split]
  | cons c cs =>
    simp only [Split]
    split
    · simp
    · split <;> simp

theorem Split_append_sep (a b : Str) (sep : Char) :
    Split (a ++ sep :: b) sep = Split a sep ++ Split b sep := by
  induction a with
  | nil => simp [Split]
  | cons c cs ih =>
    by_cases h : c = sep
    · simp [Split, h, ih]
    · rw [List.cons_append]
      simp only [Split, h, if_false]
      rw [ih]
      cases hs : Split cs sep with
      | nil => exact absurd hs (Split_ne_nil cs sep)
      | cons l ls => simp

theorem Split_of_not_mem {s : Str} {sep : Char} (h : sep ∉ s) : Split s sep = [s] := by
  induction s with
  | nil => simp [Split]
  | cons c cs ih =>
    simp only [List.mem_cons, not_or] at h
    have hc : ¬ c = sep := fun e => h.1 e.symm
    simp [Split, hc, ih h.2]

theorem not_mem_of_mem_Split {s l : Str} {sep : Char} (h : l ∈ Split s sep) : sep ∉ l := by
  induction s generalizing l with
  | nil =>
    simp only [Split, List.mem_singleton] at h
    simp [h]
  | cons c cs ih =>
    by_cases hc : c = sep
    · simp only [Split, hc, if_true, List.mem_cons] at h
      rcases h with h | h
      · simp [h]
      · exact ih h
    · simp only [Split, hc, if_false] at h
      cases hs : Split cs sep with
      | nil => exact absurd hs (Split_ne_nil cs sep)
      | cons l0 ls =>
        rw [hs] at h ih
        simp only [List.mem_cons] at h
        rcases h with h | h
        · subst h
          have := ih (List.mem_cons_self _ _)
          simp only [List.mem_cons, not_or]
          exact ⟨fun e => hc e.symm, this⟩
        · exact ih (List.mem_cons_of_mem _ h)

theorem Join_singleton (l sep : Str) : Join [l] sep = l := by
  simp [Join, List.intercalate, List.intersperse]

theorem Join_cons_cons (a b : Str) (ls : List Str) (sep : Str) :
    Join (a :: b :: ls) sep = a ++ (sep ++ Join (b :: ls) sep) := by
  simp [Join, List.intercalate, List.intersperse]

theorem Split_Join_flatMap (sep : Char) {ls : List Str} (h : ls ≠ []) :
    Split (Join ls [sep]) sep = ls.flatMap (fun l => Split l sep) := by
  induction ls with
  | nil => exact absurd rfl h
  | cons a rest ih =>
    cases rest with
    | nil => simp [Join_singleton]
    | cons b rest =>
      rw [Join_cons_cons, List.singleton_append, Split_append_sep, ih (by simp)]
      simp

theorem Split_Join (sep : Char) {ls : List Str} (h : ls ≠ []) (hs : ∀ l ∈ ls, sep ∉ l) :
    Split (Join ls [sep]) sep = ls := by
  rw [Split_Join_flatMap sep h]
  clear h
  induction ls with
  | nil => rfl
  | cons a rest ih =>
    simp only [List.flatMap_cons, Split_of_not_mem (hs a (List.mem_cons_self _ _))]
    rw [ih (fun l hl => hs l (List.mem_cons_of_mem _ hl))]
    rfl

theorem HasPrefix_iff (s pre : Str) : HasPrefix s pre = true ↔ pre <+: s := by
  simp [HasPrefix]

theorem Contains_iff (s substr : Str) : Contains s substr = true ↔ substr <:+: s := by
  simp only [Contains, List.any_eq_true, List.mem_tails, List.isPrefixOf_iff_prefix,
    List.infix_iff_prefix_suffix]
  constructor
  · rintro ⟨t, h1, h2⟩
    exact ⟨t, h2, h1⟩
  · rintro ⟨t, h1, h2⟩
    exact ⟨t, h2, h1⟩

theorem infix_Join_of_mem {l : Str} {ls : List Str} (sep : Str) (h : l ∈ ls) :
    l <:+: Join ls sep := by
  induction ls with
  | nil => simp at h
  | cons a rest ih =>
    cases rest with
    | nil =>
      simp only [List.mem_singleton] at h
      simp [Join_singleton, h]
    | cons b rest =>
      rw [Join_cons_cons]
      simp only [List.mem_cons] at h
      rcases h with h | h
      · subst h
        exact (List.prefix_append _ _).isInfix
      · have := ih (by simpa using h)
        exact this.trans ((List.suffix_append _ _).trans (List.suffix_append _ _)).isInfix

end strings

/-! # Properties of the rewrite -/

namespace NpmLogin

open strings

theorem hasPrefix_npmrcEntry (h t : Str) : HasPrefix (npmrcEntry h t) (authPrefix h) = true := by
  rw [HasPrefix_iff]
  exact List.prefix_append _ _

theorem hasPrefix_registryEntry (r : Str) :
    HasPrefix (registryEntry r) "registry=".data = true := by
  rw [HasPrefix_iff]
  exact List.prefix_append _ _

theorem not_registry_of_auth {h l : Str} (hl : HasPrefix l (authPrefix h) = true) :
    HasPrefix l "registry=".data = false := by
  cases l with
  | nil => simp [HasPrefix, authPrefix] at hl
  | cons c cs =>
    have hc : c = '/' := by
      simp [HasPrefix, authPrefix, List.isPrefixOf] at hl
      exact hl.1.symm
    subst hc
    simp [HasPrefix, List.isPrefixOf]

theorem not_auth_registryEntry (h r : Str) :
    HasPrefix (registryEntry r) (authPrefix h) = false := by
  cases hp : HasPrefix (registryEntry r) (authPrefix h) with
  | false => rfl
  | true =>
    have := not_registry_of_auth hp
    rw [hasPrefix_registryEntry] at this
    exact absurd this (by simp)

theorem scanLine_auth {h l : Str} (t r : Str) (u : Bool)
    (hl : HasPrefix l (authPrefix h) = true) : scanLine h t r u l = npmrcEntry h t := by
  simp [scanLine, hl, not_registry_of_auth hl]

theorem scanLine_registry {l : Str} (h t r : Str)
    (hl : HasPrefix l "registry=".data = true) : scanLine h t r true l = registryEntry r := by
  simp [scanLine, hl]

theorem scanLine_other {h l : Str} (t r : Str) {u : Bool}
    (ha : HasPrefix l (authPrefix h) = false)
    (hr : u = true → HasPrefix l "registry=".data = false) : scanLine h t r u l = l := by
  cases u with
  | false => simp [scanLine, ha]
  | true => simp [scanLine, ha, hr rfl]

theorem isAuthLine_scanLine (h t r : Str) (u : Bool) (l : Str) :
    isAuthLine h (scanLine h t r u l) = isAuthLine h l := by
  unfold isAuthLine
  cases ha : HasPrefix l (authPrefix h) with
  | true => rw [scanLine_auth t r u ha, hasPrefix_npmrcEntry]
  | false =>
    cases u with
    | false => rw [scanLine_other t r ha (by simp), ha]
    | true =>
      cases hr : HasPrefix l "registry=".data with
      | true => rw [scanLine_registry h t r hr, not_auth_registryEntry]
      | false => rw [scanLine_other t r ha (fun _ => hr), ha]

theorem scan_eq (h t r : Str) (u : Bool) (ls : List Str) (e : Bool) :
    scan h t r u ls e = (ls.map (scanLine h t r u), e || ls.any (isAuthLine h)) := by
  induction ls generalizing e with
  | nil => simp [scan]
  | cons l rest ih =>
    simp only [scan, ih, List.map_cons, List.any_cons, isAuthLine]
    cases ha : HasPrefix l (authPrefix h) <;> cases e <;> simp [scanLine, ha, not_registry_of_auth]

theorem withAuth_eq (h t r : Str) (u : Bool) (ls : List Str) :
    withAuth h t r u ls =
      ls.map (scanLine h t r u) ++ (if ls.any (isAuthLine h) then [] else [npmrcEntry h t]) := by
  simp only [withAuth, scan_eq, Bool.false_or]
  cases ls.any (isAuthLine h) <;> simp

theorem updateLines_eq (h t r : Str) (u : Bool) (ls : List Str) :
    updateLines h t r u ls =
      withAuth h t r u ls ++
        (if u && !Contains (Join (withAuth h t r u ls) "\n".data) (registryEntry r)
          then [registryEntry r] else []) := by
  simp only [updateLines]
  split <;> simp


theorem newline_data : "\n".data = ['\n'] := rfl

theorem length_withAuth_ge (h t r : Str) (u : Bool) (ls : List Str) :
    ls.length ≤ (withAuth h t r u ls).length := by
  rw [withAuth_eq]
  simp

theorem updateLines_ne_nil (h t r : Str) (u : Bool) {ls : List Str} (hne : ls ≠ []) :
    updateLines h t r u ls ≠ [] := by
  have h1 := length_withAuth_ge h t r u ls
  have h2 : 0 < ls.length := List.length_pos.mpr hne
  intro hnil
  have h3 := congrArg List.length hnil
  rw [updateLines_eq] at h3
  simp only [List.length_append, List.length_nil] at h3
  omega

theorem mem_scanLine_cases (h t r : Str) (u : Bool) (l : Str) :
    scanLine h t r u l = l ∨ scanLine h t r u l = npmrcEntry h t ∨
      (u = true ∧ scanLine h t r u l = registryEntry r) := by
  unfold scanLine
  split
  · rename_i hc
    simp only [Bool.and_eq_true] at hc
    exact Or.inr (Or.inr ⟨hc.1, rfl⟩)
  · split
    · exact Or.inr (Or.inl rfl)
    · exact Or.inl rfl

theorem mem_withAuth_cases {h t r : Str} {u : Bool} {ls : List Str} {l : Str}
    (hl : l ∈ withAuth h t r u ls) :
    l ∈ ls ∨ l = npmrcEntry h t ∨ (u = true ∧ l = registryEntry r) := by
  rw [withAuth_eq, List.mem_append, List.mem_map] at hl
  rcases hl with ⟨a, ha, rfl⟩ | hl
  · rcases mem_scanLine_cases h t r u a with e | e | e
    · rw [e]
      exact Or.inl ha
    · exact Or.inr (Or.inl e)
    · exact Or.inr (Or.inr e)
  · split at hl
    · simp at hl
    · simp only [List.mem_singleton] at hl
      exact Or.inr (Or.inl hl)

theorem mem_updateLines_cases {h t r : Str} {u : Bool} {ls : List Str} {l : Str}
    (hl : l ∈ updateLines h t r u ls) :
    l ∈ ls ∨ l = npmrcEntry h t ∨ (u = true ∧ l = registryEntry r) := by
  rw [updateLines_eq, List.mem_append] at hl
  rcases hl with hl | hl
  · exact mem_withAuth_cases hl
  · split at hl
    · rename_i hc
      simp only [Bool.and_eq_true] at hc
      simp only [List.mem_singleton] at hl
      exact Or.inr (Or.inr ⟨hc.1, hl⟩)
    · simp at hl

theorem eq_of_mem_ite_singleton {c : Prop} [Decidable c] {a l : Str}
    (hl : l ∈ (if c then [a] else [])) : l = a := by
  split at hl
  · simpa using hl
  · simp at hl

theorem eq_of_mem_ite_nil {c : Prop} [Decidable c] {a l : Str}
    (hl : l ∈ (if c then [] else [a])) : l = a := by
  split at hl
  · simp at hl
  · simpa using hl

theorem auth_of_mem_withAuth {h t r : Str} {u : Bool} {ls : List Str} {l : Str}
    (hl : l ∈ withAuth h t r u ls) (ha : isAuthLine h l = true) : l = npmrcEntry h t := by
  rw [withAuth_eq, List.mem_append, List.mem_map] at hl
  rcases hl with ⟨a, _, rfl⟩ | hl
  · rw [isAuthLine_scanLine] at ha
    exact scanLine_auth t r u ha
  · exact eq_of_mem_ite_nil hl

/-- Every line of the final slice that starts with the auth-token prefix is
the new entry. -/
theorem auth_of_mem_updateLines {h t r : Str} {u : Bool} {ls : List Str} {l : Str}
    (hl : l ∈ updateLines h t r u ls) (ha : isAuthLine h l = true) : l = npmrcEntry h t := by
  rw [updateLines_eq, List.mem_append] at hl
  rcases hl with hl | hl
  · exact auth_of_mem_withAuth hl ha
  · have := eq_of_mem_ite_singleton hl
    subst this
    simp [isAuthLine, not_auth_registryEntry] at ha

theorem registry_of_mem_withAuth {h t r : Str} {ls : List Str} {l : Str}
    (hl : l ∈ withAuth h t r true ls) (hr : HasPrefix l "registry=".data = true) :
    l = registryEntry r := by
  have hE : HasPrefix (npmrcEntry h t) "registry=".data = false :=
    not_registry_of_auth (hasPrefix_npmrcEntry h t)
  rw [withAuth_eq, List.mem_append, List.mem_map] at hl
  rcases hl with ⟨a, _, rfl⟩ | hl
  · cases hra : HasPrefix a "registry=".data with
    | true => exact scanLine_registry h t r hra
    | false =>
      cases haa : HasPrefix a (authPrefix h) with
      | true =>
        rw [scanLine_auth t r true haa, hE] at hr
        exact absurd hr (by simp)
      | false =>
        rw [scanLine_other t r haa (fun _ => hra), hra] at hr
        exact absurd hr (by simp)
  · have := eq_of_mem_ite_nil hl
    subst this
    rw [hE] at hr
    exact absurd hr (by simp)

/-- With the pointer flag set, every line of the final slice that starts with
`registry=` is the new registry line. -/
theorem registry_of_mem_updateLines {h t r : Str} {ls : List Str} {l : Str}
    (hl : l ∈ updateLines h t r true ls) (hr : HasPrefix l "registry=".data = true) :
    l = registryEntry r := by
  rw [updateLines_eq, List.mem_append] at hl
  rcases hl with hl | hl
  · exact registry_of_mem_withAuth hl hr
  · exact eq_of_mem_ite_singleton hl

theorem entry_mem_withAuth (h t r : Str) (u : Bool) (ls : List Str) :
    npmrcEntry h t ∈ withAuth h t r u ls := by
  rw [withAuth_eq, List.mem_append]
  cases hany : ls.any (isAuthLine h) with
  | false => simp
  | true =>
    left
    rw [List.any_eq_true] at hany
    obtain ⟨a, ha, hp⟩ := hany
    exact List.mem_map.mpr ⟨a, ha, scanLine_auth t r u hp⟩

theorem entry_mem_updateLines (h t r : Str) (u : Bool) (ls : List Str) :
    npmrcEntry h t ∈ updateLines h t r u ls := by
  rw [updateLines_eq, List.mem_append]
  exact Or.inl (entry_mem_withAuth h t r u ls)

theorem contains_Join_updateLines (h t r : Str) (ls : List Str) :
    Contains (Join (updateLines h t r true ls) "\n".data) (registryEntry r) = true := by
  cases hc : Contains (Join (withAuth h t r true ls) "\n".data) (registryEntry r) with
  | true => simp [updateLines, hc]
  | false =>
    have : updateLines h t r true ls = withAuth h t r true ls ++ [registryEntry r] := by
      simp [updateLines, hc]
    rw [this, Contains_iff]
    exact infix_Join_of_mem _ (by simp)

/-- A slice that already has the new entry, whose auth-token lines and
registry lines are the new ones, and whose text holds the registry line, is
left as it is. -/
theorem updateLines_fixed {h t r : Str} {u : Bool} {ms : List Str}
    (hA : ∀ l ∈ ms, isAuthLine h l = true → l = npmrcEntry h t)
    (hR : u = true → ∀ l ∈ ms, HasPrefix l "registry=".data = true → l = registryEntry r)
    (hE : npmrcEntry h t ∈ ms)
    (hC : u = true → Contains (Join ms "\n".data) (registryEntry r) = true) :
    updateLines h t r u ms = ms := by
  have hmap : ms.map (scanLine h t r u) = ms := by
    conv_rhs => rw [← List.map_id ms]
    apply List.map_congr_left
    intro l hl
    simp only [id_eq]
    cases ha : HasPrefix l (authPrefix h) with
    | true => rw [scanLine_auth t r u ha, hA l hl ha]
    | false =>
      cases u with
      | false => exact scanLine_other t r ha (by simp)
      | true =>
        cases hr : HasPrefix l "registry=".data with
        | true => rw [scanLine_registry h t r hr, hR rfl l hl hr]
        | false => exact scanLine_other t r ha (fun _ => hr)
  have hany : ms.any (isAuthLine h) = true :=
    List.any_eq_true.mpr ⟨_, hE, hasPrefix_npmrcEntry h t⟩
  have hw : withAuth h t r u ms = ms := by
    rw [withAuth_eq, hmap, hany]
    simp
  rw [updateLines_eq, hw]
  cases u with
  | false => simp
  | true => simp [hC rfl]

theorem updateLines_updateLines (h t r : Str) (u : Bool) (ls : List Str) :
    updateLines h t r u (updateLines h t r u ls) = updateLines h t r u ls := by
  apply updateLines_fixed
  · intro l hl ha
    exact auth_of_mem_updateLines hl ha
  · intro hu l hl hr
    subst hu
    exact registry_of_mem_updateLines hl hr
  · exact entry_mem_updateLines h t r u ls
  · intro hu
    subst hu
    exact contains_Join_updateLines h t r ls

theorem newline_not_mem_npmrcEntry {h t : Str} (hh : '\n' ∉ h) (ht : '\n' ∉ t) :
    '\n' ∉ npmrcEntry h t := by
  simp [npmrcEntry, hh, ht]

theorem newline_not_mem_registryEntry {r : Str} (hr : '\n' ∉ r) :
    '\n' ∉ registryEntry r := by
  simp [registryEntry, hr]

/-- When the entries hold no newline, splitting the written text gives back
the slice that was joined. -/
theorem Split_ConfigUpdater {h t r : Str} {u : Bool} (c : Str)
    (hh : '\n' ∉ h) (ht : '\n' ∉ t) (hr : u = true → '\n' ∉ r) :
    Split (ConfigUpdater h t r u c) '\n' = updateLines h t r u (Split c '\n') := by
  unfold ConfigUpdater
  rw [newline_data]
  apply Split_Join
  · exact updateLines_ne_nil h t r u (Split_ne_nil c '\n')
  · intro l hl
    rcases mem_updateLines_cases hl with hl | hl | ⟨hu, hl⟩
    · exact not_mem_of_mem_Split hl
    · rw [hl]
      exact newline_not_mem_npmrcEntry hh ht
    · rw [hl]
      exact newline_not_mem_registryEntry (hr hu)


/-- The lines the program appends after the loop: the auth-token line when
the loop found none, then the registry line when line 133 asks for it. -/
theorem updateLines_split (h t r : Str) (u : Bool) (ls : List Str) :
    updateLines h t r u ls =
      ls.map (scanLine h t r u) ++
        ((if ls.any (isAuthLine h) then [] else [npmrcEntry h t]) ++
          (if u && !Contains (Join (withAuth h t r u ls) "\n".data) (registryEntry r)
            then [registryEntry r] else [])) := by
  rw [updateLines_eq, ← List.append_assoc, ← withAuth_eq]

theorem countP_updateLines (h t r : Str) (u : Bool) (ls : List Str) :
    List.countP (isAuthLine h) (updateLines h t r u ls) =
      max 1 (List.countP (isAuthLine h) ls) := by
  have hmap : List.countP (isAuthLine h) (ls.map (scanLine h t r u)) =
      List.countP (isAuthLine h) ls := by
    rw [List.countP_map]
    apply List.countP_congr
    intro l _
    simp [isAuthLine_scanLine]
  have hR : isAuthLine h (registryEntry r) = false := not_auth_registryEntry h r
  have hE : isAuthLine h (npmrcEntry h t) = true := hasPrefix_npmrcEntry h t
  rw [updateLines_split, List.countP_append, List.countP_append, hmap]
  have h2 : List.countP (isAuthLine h)
      (if u && !Contains (Join (withAuth h t r u ls) "\n".data) (registryEntry r)
            then [registryEntry r] else []) = 0 := by
    split <;> simp [hR]
  rw [h2]
  cases hany : ls.any (isAuthLine h) with
  | true =>
    have : 0 < List.countP (isAuthLine h) ls := by
      rw [List.countP_pos_iff]
      simpa using hany
    simp only [if_true, List.countP_nil, Nat.add_zero]
    omega
  | false =>
    have : List.countP (isAuthLine h) ls = 0 := by
      rw [List.countP_eq_zero]
      simpa using hany
    simp [this, hE]


/-! # The claims -/

/-- C1. The text transformation is idempotent: when host, token and registry
URL hold no newline, a second application with the same arguments to the
output of the first returns that output unchanged; the slice the second run
joins is exactly the list of lines it read, so it adds no auth-token line and
no registry line. -/
theorem ConfigUpdater_idempotent (host token registry : Str) (useRegistry : Bool)
    (content : Str) (hh : '\n' ∉ host) (ht : '\n' ∉ token) (hr : '\n' ∉ registry) :
    ConfigUpdater host token registry useRegistry
        (ConfigUpdater host token registry useRegistry content) =
      ConfigUpdater host token registry useRegistry content ∧
    updateLines host token registry useRegistry
        (Split (ConfigUpdater host token registry useRegistry content) '\n') =
      Split (ConfigUpdater host token registry useRegistry content) '\n' := by
  have hs := @Split_ConfigUpdater host token registry useRegistry content hh ht (fun _ => hr)
  have hu : updateLines host token registry useRegistry
      (Split (ConfigUpdater host token registry useRegistry content) '\n') =
      Split (ConfigUpdater host token registry useRegistry content) '\n' := by
    rw [hs, updateLines_updateLines]
  refine ⟨?_, hu⟩
  conv_lhs => rw [ConfigUpdater, hu, hs]
  rfl

/-- C1 at host `reg.example.com`, token `T`, registry
`https://reg.example.com`, the flag set and the content `foo=bar` with a
trailing newline. -/
theorem ConfigUpdater_idempotent_witness :
    ('\n' ∉ "reg.example.com".data ∧ '\n' ∉ "T".data ∧ '\n' ∉ "https://reg.example.com".data) ∧
    ConfigUpdater "reg.example.com".data "T".data "https://reg.example.com".data true
        (ConfigUpdater "reg.example.com".data "T".data "https://reg.example.com".data true
          "foo=bar\n".data) =
      ConfigUpdater "reg.example.com".data "T".data "https://reg.example.com".data true
        "foo=bar\n".data :=
  ⟨⟨by decide, by decide, by decide⟩,
    (ConfigUpdater_idempotent "reg.example.com".data "T".data "https://reg.example.com".data true
      "foo=bar\n".data (by decide) (by decide) (by decide)).1⟩

/-- C2, as stated, fails: the output keeps the newline that ends the input,
so it is not the text without it. -/
theorem upsert_example_as_stated_fails :
    ConfigUpdater "reg.example.com".data "NEW".data "https://reg.example.com".data false
        "foo=bar\n//reg.example.com/:_authToken=OLD\n".data ≠
      "foo=bar\n//reg.example.com/:_authToken=NEW".data := by
  decide

/-- C2, amended. With host `reg.example.com`, token `NEW` and the flag unset,
the content `foo=bar`, newline, the old auth-token line, newline, becomes
`foo=bar`, newline, the new auth-token line, newline: the auth-token line is
replaced in place, `foo=bar` and the empty last line are untouched. -/
theorem upsert_example (registry : Str) :
    ConfigUpdater "reg.example.com".data "NEW".data registry false
        "foo=bar\n//reg.example.com/:_authToken=OLD\n".data =
      "foo=bar\n//reg.example.com/:_authToken=NEW\n".data ∧
    updateLines "reg.example.com".data "NEW".data registry false
        (Split "foo=bar\n//reg.example.com/:_authToken=OLD\n".data '\n') =
      ["foo=bar".data, "//reg.example.com/:_authToken=NEW".data, "".data] := by
  constructor <;> rfl

/-- C3, as stated, fails: on empty content the output starts with a newline,
the auth-token line being the second line after an empty first one. -/
theorem append_example_as_stated_fails :
    ConfigUpdater "reg.example.com".data "T".data "https://reg.example.com".data false "".data ≠
      "//reg.example.com/:_authToken=T".data := by
  decide

/-- C3, amended. With host `reg.example.com`, token `T` and the flag unset,
empty content becomes a newline followed by the auth-token line: the slice
joined is the empty line and the auth-token line.  A file that does not exist
is read as empty content, and a run of `main` in the sample environment on an
empty file system writes exactly that text to the file. -/
theorem append_example (registry : Str) :
    ConfigUpdater "reg.example.com".data "T".data registry false "".data =
      "\n//reg.example.com/:_authToken=T".data ∧
    updateLines "reg.example.com".data "T".data registry false (Split "".data '\n') =
      ["".data, "//reg.example.com/:_authToken=T".data] ∧
    (∀ (σ : Type) (sys : Sys σ) (fs : σ) (path err : Str),
      sys.readFile fs path = ReadResult.notExist err → readConfig sys fs path = Except.ok []) ∧
    (main (sampleSys [("ok".data, Value.string "true".data), ("token".data, Value.string "T".data)])
        sampleFlags []).writes =
      [("/home/u/.npmrc".data, "\n//reg.example.com/:_authToken=T".data)] := by
  refine ⟨rfl, rfl, ?_, rfl⟩
  intro σ sys fs path err h
  simp [readConfig, h]


/-- C4, as stated, fails. Two auth-token lines of the host in the initial
content are both rewritten and both kept, by one run and by two; a host with
a newline matches no line; a token or a registry URL with a newline can carry
a second line with the prefix. -/
theorem one_auth_line_as_stated_fails :
    List.countP (isAuthLine "reg.example.com".data)
        (Split (ConfigUpdater "reg.example.com".data "T".data "https://reg.example.com".data false
          (ConfigUpdater "reg.example.com".data "T".data "https://reg.example.com".data false
            "//reg.example.com/:_authToken=A\n//reg.example.com/:_authToken=B".data)) '\n') = 2 ∧
    List.countP (isAuthLine "a\nb".data)
        (Split (ConfigUpdater "a\nb".data "T".data "https://reg.example.com".data false
          (ConfigUpdater "a\nb".data "T".data "https://reg.example.com".data false
            "foo=bar".data)) '\n') = 0 ∧
    List.countP (isAuthLine "h".data)
        (Split (ConfigUpdater "h".data "x\n//h/:_authToken=y".data "https://reg.example.com".data
          false
          (ConfigUpdater "h".data "x\n//h/:_authToken=y".data "https://reg.example.com".data false
            "foo=bar".data)) '\n') = 4 ∧
    List.countP (isAuthLine "h".data)
        (Split (ConfigUpdater "h".data "T".data "x\n//h/:_authToken=y".data true
          (ConfigUpdater "h".data "T".data "x\n//h/:_authToken=y".data true
            "foo=bar".data)) '\n') = 3 := by
  decide

/-- C4, amended. When host, token and (if the flag is set) registry URL hold
no newline, the content after one run has `max 1 k` lines that start with the
auth-token prefix of the host, `k` being their number in the initial content,
and so has the content after a second run with the same host and token (any
flag and registry URL in each run): a run changes the number only from zero
to one, lines duplicated in the initial content are all kept, and every such
line of the output is the new auth-token line.  Hence for an initial content
with at most one such line the content after one run and after two runs has
exactly one. -/
theorem one_auth_line (host token registry1 registry2 : Str) (use1 use2 : Bool) (content : Str)
    (hh : '\n' ∉ host) (ht : '\n' ∉ token)
    (hr1 : use1 = true → '\n' ∉ registry1) (hr2 : use2 = true → '\n' ∉ registry2) :
    List.countP (isAuthLine host)
        (Split (ConfigUpdater host token registry1 use1 content) '\n') =
      max 1 (List.countP (isAuthLine host) (Split content '\n')) ∧
    List.countP (isAuthLine host)
        (Split (ConfigUpdater host token registry2 use2
          (ConfigUpdater host token registry1 use1 content)) '\n') =
      max 1 (List.countP (isAuthLine host) (Split content '\n')) ∧
    (∀ line ∈ Split (ConfigUpdater host token registry1 use1 content) '\n',
      isAuthLine host line = true → line = npmrcEntry host token) ∧
    (∀ line ∈ Split (ConfigUpdater host token registry2 use2
        (ConfigUpdater host token registry1 use1 content)) '\n',
      isAuthLine host line = true → line = npmrcEntry host token) ∧
    (List.countP (isAuthLine host) (Split content '\n') ≤ 1 →
      List.countP (isAuthLine host)
          (Split (ConfigUpdater host token registry1 use1 content) '\n') = 1 ∧
      List.countP (isAuthLine host)
          (Split (ConfigUpdater host token registry2 use2
            (ConfigUpdater host token registry1 use1 content)) '\n') = 1) := by
  have h1 : List.countP (isAuthLine host)
      (Split (ConfigUpdater host token registry1 use1 content) '\n') =
      max 1 (List.countP (isAuthLine host) (Split content '\n')) := by
    rw [Split_ConfigUpdater content hh ht hr1, countP_updateLines]
  have h2 : List.countP (isAuthLine host)
      (Split (ConfigUpdater host token registry2 use2
        (ConfigUpdater host token registry1 use1 content)) '\n') =
      max 1 (List.countP (isAuthLine host) (Split content '\n')) := by
    rw [Split_ConfigUpdater _ hh ht hr2, countP_updateLines, h1]
    omega
  refine ⟨h1, h2, ?_, ?_, ?_⟩
  · intro line hl ha
    rw [Split_ConfigUpdater content hh ht hr1] at hl
    exact auth_of_mem_updateLines hl ha
  · intro line hl ha
    rw [Split_ConfigUpdater _ hh ht hr2] at hl
    exact auth_of_mem_updateLines hl ha
  · intro hone
    rw [h1, h2]
    omega

/-- C4, amended, at host `reg.example.com`, token `T`, registry
`https://reg.example.com`, the flag unset then set: a content with one stale
auth-token line has one after two runs, a content with two has two. -/
theorem one_auth_line_witness :
    List.countP (isAuthLine "reg.example.com".data)
        (Split "foo=bar\n//reg.example.com/:_authToken=OLD\n".data '\n') ≤ 1 ∧
    List.countP (isAuthLine "reg.example.com".data)
        (Split (ConfigUpdater "reg.example.com".data "T".data "https://reg.example.com".data true
          (ConfigUpdater "reg.example.com".data "T".data "https://reg.example.com".data false
            "foo=bar\n//reg.example.com/:_authToken=OLD\n".data)) '\n') = 1 ∧
    List.countP (isAuthLine "reg.example.com".data)
        (Split (ConfigUpdater "reg.example.com".data "T".data "https://reg.example.com".data true
          (ConfigUpdater "reg.example.com".data "T".data "https://reg.example.com".data false
            "//reg.example.com/:_authToken=A\n//reg.example.com/:_authToken=B".data)) '\n') =
      max 1 (List.countP (isAuthLine "reg.example.com".data)
        (Split "//reg.example.com/:_authToken=A\n//reg.example.com/:_authToken=B".data '\n')) :=
  ⟨by decide,
    ((one_auth_line "reg.example.com".data "T".data "https://reg.example.com".data
      "https://reg.example.com".data false true
      "foo=bar\n//reg.example.com/:_authToken=OLD\n".data
      (by decide) (by decide) (by decide) (by decide)).2.2.2.2 (by decide)).2,
    (one_auth_line "reg.example.com".data "T".data "https://reg.example.com".data
      "https://reg.example.com".data false true
      "//reg.example.com/:_authToken=A\n//reg.example.com/:_authToken=B".data
      (by decide) (by decide) (by decide) (by decide)).2.1⟩

/-- C5, as stated, fails: when the registry line occurs inside a comment line
of the initial content, the loop rewrites nothing, line 133 finds the text
and appends nothing, and no line of the output is the registry line. -/
theorem registry_line_as_stated_fails :
    registryEntry "https://reg.example.com".data ∉
      Split (ConfigUpdater "reg.example.com".data "T".data "https://reg.example.com".data true
        "# registry=https://reg.example.com".data) '\n' := by
  decide

/-- C5, amended. With the flag set and registry `https://reg.example.com`,
for every content, host and token the output holds
`registry=https://reg.example.com` as a substring; and it has a line exactly
equal to it whenever some line of the initial content starts with `registry=`
or the text joined after the loop and the auth-token append does not hold it
as a substring. -/
theorem registry_line (host token content : Str) :
    Contains (ConfigUpdater host token "https://reg.example.com".data true content)
      (registryEntry "https://reg.example.com".data) = true ∧
    (((∃ l ∈ Split content '\n', HasPrefix l "registry=".data = true) ∨
      Contains (Join (withAuth host token "https://reg.example.com".data true
        (Split content '\n')) "\n".data) (registryEntry "https://reg.example.com".data) = false) →
      registryEntry "https://reg.example.com".data ∈
        Split (ConfigUpdater host token "https://reg.example.com".data true content) '\n') := by
  refine ⟨contains_Join_updateLines _ _ _ _, ?_⟩
  intro hcase
  have hmem : registryEntry "https://reg.example.com".data ∈
      updateLines host token "https://reg.example.com".data true (Split content '\n') := by
    rcases hcase with ⟨l, hl, hp⟩ | hc
    · rw [updateLines_split, List.mem_append, List.mem_map]
      exact Or.inl ⟨l, hl, scanLine_registry _ _ _ hp⟩
    · simp [updateLines, hc]
  unfold ConfigUpdater
  rw [newline_data, Split_Join_flatMap _ (updateLines_ne_nil _ _ _ _ (Split_ne_nil _ _)),
    List.mem_flatMap]
  refine ⟨_, hmem, ?_⟩
  rw [Split_of_not_mem (by decide)]
  simp

/-- C5, amended, at host `reg.example.com` and token `T`: the content
`registry=https://old.example.com` gets the registry line as a line, and the
output for the comment line `# registry=https://reg.example.com` holds it as
a substring. -/
theorem registry_line_witness :
    (∃ l ∈ Split "registry=https://old.example.com".data '\n',
      HasPrefix l "registry=".data = true) ∧
    registryEntry "https://reg.example.com".data ∈
      Split (ConfigUpdater "reg.example.com".data "T".data "https://reg.example.com".data true
        "registry=https://old.example.com".data) '\n' ∧
    Contains (ConfigUpdater "reg.example.com".data "T".data "https://reg.example.com".data true
        "# registry=https://reg.example.com".data)
      (registryEntry "https://reg.example.com".data) = true :=
  ⟨⟨"registry=https://old.example.com".data, by decide, by decide⟩,
    (registry_line "reg.example.com".data "T".data "registry=https://old.example.com".data).2
      (Or.inl ⟨"registry=https://old.example.com".data, by decide, by decide⟩),
    (registry_line "reg.example.com".data "T".data
      "# registry=https://reg.example.com".data).1⟩

/-- The frame of the slice the program joins: its length, the indices the
loop leaves alone and the lines past the original ones. -/
theorem frame_updateLines (host token registry : Str) (useRegistry : Bool)
    (content : Str) :
    ((updateLines host token registry useRegistry (Split content '\n')).length =
        (Split content '\n').length ∨
      (updateLines host token registry useRegistry (Split content '\n')).length =
        (Split content '\n').length + 1 ∨
      (updateLines host token registry useRegistry (Split content '\n')).length =
        (Split content '\n').length + 2) ∧
    (∀ (i : Nat) (line : Str), (Split content '\n')[i]? = some line →
      HasPrefix line (authPrefix host) = false →
      (useRegistry = true → HasPrefix line "registry=".data = false) →
      (updateLines host token registry useRegistry (Split content '\n'))[i]? = some line) ∧
    (∀ (i : Nat) (line : Str), (Split content '\n')[i]? = some line →
      HasPrefix line (authPrefix host) = false →
      (updateLines host token registry false (Split content '\n'))[i]? = some line) ∧
    ((updateLines host token registry useRegistry (Split content '\n')).drop
          (Split content '\n').length = [] ∨
      (updateLines host token registry useRegistry (Split content '\n')).drop
          (Split content '\n').length = [npmrcEntry host token] ∨
      (useRegistry = true ∧
        (updateLines host token registry useRegistry (Split content '\n')).drop
          (Split content '\n').length = [registryEntry registry]) ∨
      (useRegistry = true ∧
        (updateLines host token registry useRegistry (Split content '\n')).drop
          (Split content '\n').length = [npmrcEntry host token, registryEntry registry])) := by
  have hidx : ∀ (u : Bool) (i : Nat) (line : Str), (Split content '\n')[i]? = some line →
      HasPrefix line (authPrefix host) = false →
      (u = true → HasPrefix line "registry=".data = false) →
      (updateLines host token registry u (Split content '\n'))[i]? = some line := by
    intro u i line hi ha hr
    have hlt : i < (Split content '\n').length := by
      rcases Nat.lt_or_ge i (Split content '\n').length with h | h
      · exact h
      · rw [List.getElem?_eq_none h] at hi
        exact absurd hi (by simp)
    rw [updateLines_split, List.getElem?_append_left (by simpa using hlt), List.getElem?_map, hi]
    simp [scanLine_other token registry ha hr]
  have hdrop : (updateLines host token registry useRegistry (Split content '\n')).drop
      (Split content '\n').length =
      (if (Split content '\n').any (isAuthLine host) then [] else [npmrcEntry host token]) ++
        (if useRegistry && !Contains (Join (withAuth host token registry useRegistry
            (Split content '\n')) "\n".data) (registryEntry registry)
          then [registryEntry registry] else []) := by
    rw [updateLines_split]
    have := List.drop_left (List.map (scanLine host token registry useRegistry)
      (Split content '\n'))
      ((if (Split content '\n').any (isAuthLine host) then [] else [npmrcEntry host token]) ++
        (if useRegistry && !Contains (Join (withAuth host token registry useRegistry
            (Split content '\n')) "\n".data) (registryEntry registry)
          then [registryEntry registry] else []))
    rw [List.length_map] at this
    exact this
  refine ⟨?_, hidx useRegistry, ?_, ?_⟩
  · rw [updateLines_split]
    simp only [List.length_append, List.length_map]
    split <;> split <;> simp
  · intro i line hi ha
    exact hidx false i line hi ha (by simp)
  · rw [hdrop]
    split
    · split
      · rename_i hc
        simp only [Bool.and_eq_true] at hc
        exact Or.inr (Or.inr (Or.inl ⟨hc.1, by simp⟩))
      · exact Or.inl (by simp)
    · split
      · rename_i hc
        simp only [Bool.and_eq_true] at hc
        exact Or.inr (Or.inr (Or.inr ⟨hc.1, by simp⟩))
      · exact Or.inr (Or.inl (by simp))

/-- C6, as stated, fails for the lines of the written text when a newline
stands in the token, the host or the registry URL. With the token
`a`, `b`, `c`, `d` on four lines, the content `foo` of one line becomes a
text of five; with the token `a`, `b` on two lines, the line `foo` at index 1
of the input is at index 2 of the output and index 1 holds `b`; a host or a
registry URL on several lines gives five lines from one just so. -/
theorem other_lines_untouched_as_stated_fails :
    ((Split "foo".data '\n').length = 1 ∧
      (Split (ConfigUpdater "reg.example.com".data "a\nb\nc\nd".data
        "https://reg.example.com".data false "foo".data) '\n').length = 5) ∧
    ((Split "//reg.example.com/:_authToken=OLD\nfoo".data '\n')[1]? = some "foo".data ∧
      HasPrefix "foo".data (authPrefix "reg.example.com".data) = false ∧
      (Split (ConfigUpdater "reg.example.com".data "a\nb".data "https://reg.example.com".data
        false "//reg.example.com/:_authToken=OLD\nfoo".data) '\n')[1]? = some "b".data ∧
      (Split (ConfigUpdater "reg.example.com".data "a\nb".data "https://reg.example.com".data
        false "//reg.example.com/:_authToken=OLD\nfoo".data) '\n')[2]? = some "foo".data) ∧
    (Split (ConfigUpdater "a\nb\nc\nd".data "T".data "https://reg.example.com".data false
      "foo".data) '\n').length = 5 ∧
    (Split (ConfigUpdater "reg.example.com".data "T".data "x\ny\nz".data true
      "foo".data) '\n').length = 5 := by
  decide

/-- C6, amended. When host, token and (if the flag is set) registry URL hold
no newline, every other line stays untouched and in place: for a content
split into `n` lines, the written text split on newlines has `n`, `n+1` or
`n+2` lines; at every index below `n` whose input line neither starts with
the auth-token prefix of the host nor, when the flag is set, with
`registry=`, the output line is the input line itself (with the flag unset a
`registry=` line is such a line); past index `n-1` the output holds only the
new auth-token line and/or the new registry line, and no registry line when
the flag is unset. -/
theorem other_lines_untouched (host token registry : Str) (useRegistry : Bool)
    (content : Str) (hh : '\n' ∉ host) (ht : '\n' ∉ token)
    (hr : useRegistry = true → '\n' ∉ registry) :
    ((Split (ConfigUpdater host token registry useRegistry content) '\n').length =
        (Split content '\n').length ∨
      (Split (ConfigUpdater host token registry useRegistry content) '\n').length =
        (Split content '\n').length + 1 ∨
      (Split (ConfigUpdater host token registry useRegistry content) '\n').length =
        (Split content '\n').length + 2) ∧
    (∀ (i : Nat) (line : Str), (Split content '\n')[i]? = some line →
      HasPrefix line (authPrefix host) = false →
      (useRegistry = true → HasPrefix line "registry=".data = false) →
      (Split (ConfigUpdater host token registry useRegistry content) '\n')[i]? = some line) ∧
    (∀ (i : Nat) (line : Str), (Split content '\n')[i]? = some line →
      HasPrefix line (authPrefix host) = false →
      (Split (ConfigUpdater host token registry false content) '\n')[i]? = some line) ∧
    ((Split (ConfigUpdater host token registry useRegistry content) '\n').drop
          (Split content '\n').length = [] ∨
      (Split (ConfigUpdater host token registry useRegistry content) '\n').drop
          (Split content '\n').length = [npmrcEntry host token] ∨
      (useRegistry = true ∧
        (Split (ConfigUpdater host token registry useRegistry content) '\n').drop
          (Split content '\n').length = [registryEntry registry]) ∨
      (useRegistry = true ∧
        (Split (ConfigUpdater host token registry useRegistry content) '\n').drop
          (Split content '\n').length = [npmrcEntry host token, registryEntry registry])) := by
  have hs := @Split_ConfigUpdater host token registry useRegistry content hh ht hr
  have hs0 := @Split_ConfigUpdater host token registry false content hh ht (by simp)
  rw [hs, hs0]
  exact frame_updateLines host token registry useRegistry content

/-- C6, amended, at host `reg.example.com`, token `T`, the flag set with
registry `https://reg.example.com`, and a content of four lines: a blank
line, a line ending in a carriage return, a stale auth-token line and an
empty last line. -/
theorem other_lines_untouched_witness :
    ('\n' ∉ "reg.example.com".data ∧ '\n' ∉ "T".data ∧
      '\n' ∉ "https://reg.example.com".data) ∧
    (Split "\nfoo=bar\r\n//reg.example.com/:_authToken=OLD\n".data '\n').length = 4 ∧
    (∀ (i : Nat) (line : Str),
      (Split "\nfoo=bar\r\n//reg.example.com/:_authToken=OLD\n".data '\n')[i]? = some line →
      HasPrefix line (authPrefix "reg.example.com".data) = false →
      (true = true → HasPrefix line "registry=".data = false) →
      (Split (ConfigUpdater "reg.example.com".data "T".data "https://reg.example.com".data true
        "\nfoo=bar\r\n//reg.example.com/:_authToken=OLD\n".data) '\n')[i]? = some line) ∧
    (Split (ConfigUpdater "reg.example.com".data "T".data "https://reg.example.com".data true
      "\nfoo=bar\r\n//reg.example.com/:_authToken=OLD\n".data) '\n')[1]? =
        some "foo=bar\r".data :=
  ⟨⟨by decide, by decide, by decide⟩, by decide,
    (other_lines_untouched "reg.example.com".data "T".data "https://reg.example.com".data true
      "\nfoo=bar\r\n//reg.example.com/:_authToken=OLD\n".data
      (by decide) (by decide) (by decide)).2.1,
    (other_lines_untouched "reg.example.com".data "T".data "https://reg.example.com".data true
      "\nfoo=bar\r\n//reg.example.com/:_authToken=OLD\n".data
      (by decide) (by decide) (by decide)).2.1 1 "foo=bar\r".data (by decide) (by decide)
      (by decide)⟩

/-- C10. No stale token survives an update: the slice the program joins and
writes holds the new auth-token line, every line of it that starts with the
auth-token prefix of the host is that new line, and when no line of the
initial content has the prefix the new line stands at the index right after
the positions of the original lines, which hold what the loop left there. -/
theorem no_stale_token (host token registry : Str) (useRegistry : Bool) (content : Str) :
    npmrcEntry host token ∈ updateLines host token registry useRegistry (Split content '\n') ∧
    (∀ line ∈ updateLines host token registry useRegistry (Split content '\n'),
      HasPrefix line (authPrefix host) = true → line = npmrcEntry host token) ∧
    ((∀ line ∈ Split content '\n', HasPrefix line (authPrefix host) = false) →
      (updateLines host token registry useRegistry (Split content '\n'))[
          (Split content '\n').length]? = some (npmrcEntry host token) ∧
      (updateLines host token registry useRegistry (Split content '\n')).take
          (Split content '\n').length =
        (scan host token registry useRegistry (Split content '\n') false).1) := by
  refine ⟨entry_mem_updateLines _ _ _ _ _, fun line hl ha => auth_of_mem_updateLines hl ha, ?_⟩
  intro hnone
  have hany : (Split content '\n').any (isAuthLine host) = false := by
    rw [List.any_eq_false]
    intro l hl
    simp [isAuthLine, hnone l hl]
  constructor
  · rw [updateLines_split, List.getElem?_append_right (by simp), hany]
    simp
  · rw [updateLines_split, scan_eq]
    have := List.take_left (List.map (scanLine host token registry useRegistry)
      (Split content '\n'))
      ((if (Split content '\n').any (isAuthLine host) then [] else [npmrcEntry host token]) ++
        (if useRegistry && !Contains (Join (withAuth host token registry useRegistry
            (Split content '\n')) "\n".data) (registryEntry registry)
          then [registryEntry registry] else []))
    rw [List.length_map] at this
    exact this


/-- The check of lines 72-83 in terms of the two fields. -/
theorem checkResponse_cases {σ : Type} (sys : Sys σ) (respData : Object) :
    (index respData "ok".data ≠ Value.string "true".data ∧
      checkResponse sys respData = Except.error
        ["Login failed.".data,
          "Response: ".data ++ sys.fmtValue (index respData "ok".data)]) ∨
    (index respData "ok".data = Value.string "true".data ∧
      (∀ s, index respData "token".data ≠ Value.string s) ∧
      checkResponse sys respData = Except.error ["Token not found in response.".data]) ∨
    (index respData "ok".data = Value.string "true".data ∧
      ∃ s, index respData "token".data = Value.string s ∧
        checkResponse sys respData = Except.ok s) := by
  cases hok : index respData "ok".data with
  | string s =>
    by_cases hs : s = "true".data
    · subst hs
      right
      cases htok : index respData "token".data with
      | string tk =>
        right
        refine ⟨rfl, tk, rfl, ?_⟩
        simp [checkResponse, hok, htok, assertString]
      | _ =>
        left
        refine ⟨rfl, by simp, ?_⟩
        simp [checkResponse, hok, htok, assertString]
    · left
      refine ⟨by simpa using hs, ?_⟩
      simp [checkResponse, hok, assertString, hs]
  | _ =>
    left
    refine ⟨by simp, ?_⟩
    simp [checkResponse, hok, assertString]

/-- C7. The response check yields token `T` exactly when the field `ok` is
the string `true` and the field `token` is the string `T`; when `ok` is
anything else (absent, another string, a non-string such as the boolean
`true`) it fails with the login-failed lines, and when `ok` is the string
`true` but `token` is absent or not a string it fails with the token-missing
line.  The response with `ok` the string `true` and `token` the string `T`
yields `T`; the one with `ok` the boolean `true` fails. -/
theorem checkResponse_iff {σ : Type} (sys : Sys σ) (respData : Object) :
    (∀ T : Str, checkResponse sys respData = Except.ok T ↔
      (index respData "ok".data = Value.string "true".data ∧
        index respData "token".data = Value.string T)) ∧
    (index respData "ok".data ≠ Value.string "true".data →
      checkResponse sys respData = Except.error
        ["Login failed.".data,
          "Response: ".data ++ sys.fmtValue (index respData "ok".data)]) ∧
    ((∀ T : Str, index respData "token".data ≠ Value.string T) →
      ∃ out, checkResponse sys respData = Except.error out) ∧
    checkResponse sys
        [("ok".data, Value.string "true".data), ("token".data, Value.string "T".data)] =
      Except.ok "T".data ∧
    checkResponse sys [("ok".data, Value.bool true), ("token".data, Value.string "T".data)] =
      Except.error
        ["Login failed.".data, "Response: ".data ++ sys.fmtValue (Value.bool true)] ∧
    checkResponse sys [("ok".data, Value.string "false".data)] =
      Except.error
        ["Login failed.".data, "Response: ".data ++ sys.fmtValue (Value.string "false".data)] ∧
    checkResponse sys [("token".data, Value.string "T".data)] =
      Except.error ["Login failed.".data, "Response: ".data ++ sys.fmtValue Value.null] ∧
    checkResponse sys [("ok".data, Value.string "true".data)] =
      Except.error ["Token not found in response.".data] := by
  refine ⟨?_, ?_, ?_, rfl, rfl, rfl, rfl, rfl⟩
  · intro T
    rcases checkResponse_cases sys respData with ⟨h1, h2⟩ | ⟨h1, h2, h3⟩ | ⟨h1, s, h2, h3⟩
    · rw [h2]
      constructor
      · intro h
        exact absurd h (by simp)
      · intro h
        exact absurd h.1 h1
    · rw [h3]
      constructor
      · intro h
        exact absurd h (by simp)
      · intro h
        exact absurd h.2 (h2 T)
    · rw [h3, h2]
      constructor
      · intro h
        refine ⟨h1, ?_⟩
        injection h with h
        rw [h]
      · intro h
        injection h.2 with h
        rw [h]
  · intro hne
    rcases checkResponse_cases sys respData with ⟨_, h2⟩ | ⟨h1, _, _⟩ | ⟨h1, _, _, _⟩
    · exact h2
    · exact absurd h1 hne
    · exact absurd h1 hne
  · intro hne
    rcases checkResponse_cases sys respData with ⟨_, h2⟩ | ⟨_, _, h3⟩ | ⟨_, s, h2, _⟩
    · exact ⟨_, h2⟩
    · exact ⟨_, h3⟩
    · exact absurd h2 (hne s)

/-- C8. When the registry's parsed response has a field `ok` that is not the
string `true` (the string `false`, another value, or no field at all), the
run ends with exit status 1 and leaves the file system as it was: no write
happens, and the lines printed are the login-failed ones. -/
theorem failed_login_writes_nothing {σ : Type} (sys : Sys σ) (flags : Flags) (fs : σ)
    (respData : Object) (hresp : receive sys flags = Except.ok respData)
    (hok : index respData "ok".data ≠ Value.string "true".data) :
    (main sys flags fs).exit = 1 ∧ (main sys flags fs).fs = fs ∧
      (main sys flags fs).writes = [] ∧
      (main sys flags fs).stdout =
        ["Login failed.".data, "Response: ".data ++ sys.fmtValue (index respData "ok".data)] := by
  have hc : checkResponse sys respData = Except.error
      ["Login failed.".data, "Response: ".data ++ sys.fmtValue (index respData "ok".data)] := by
    rcases checkResponse_cases sys respData with ⟨_, h2⟩ | ⟨h1, _, _⟩ | ⟨h1, _, _, _⟩
    · exact h2
    · exact absurd h1 hok
    · exact absurd h1 hok
  simp [main, hresp, hc]

/-- C8 in the sample environment: the registry answers with `ok` the string
`false`, and with a response that has no field `ok`; the file system holds
one file. -/
theorem failed_login_writes_nothing_witness :
    (receive (sampleSys [("ok".data, Value.string "false".data)]) sampleFlags =
        Except.ok [("ok".data, Value.string "false".data)] ∧
      index [("ok".data, Value.string "false".data)] "ok".data ≠ Value.string "true".data) ∧
    (main (sampleSys [("ok".data, Value.string "false".data)]) sampleFlags
        [("/home/u/.npmrc".data, "foo=bar\n".data)]).exit = 1 ∧
    (main (sampleSys [("ok".data, Value.string "false".data)]) sampleFlags
        [("/home/u/.npmrc".data, "foo=bar\n".data)]).fs =
      [("/home/u/.npmrc".data, "foo=bar\n".data)] ∧
    (main (sampleSys [("ok".data, Value.string "false".data)]) sampleFlags
        [("/home/u/.npmrc".data, "foo=bar\n".data)]).writes = [] ∧
    (main (sampleSys [("token".data, Value.string "T".data)]) sampleFlags
        [("/home/u/.npmrc".data, "foo=bar\n".data)]).fs =
      [("/home/u/.npmrc".data, "foo=bar\n".data)] :=
  ⟨⟨rfl, by simp [index, List.lookup]⟩,
    (failed_login_writes_nothing (sampleSys [("ok".data, Value.string "false".data)]) sampleFlags
      [("/home/u/.npmrc".data, "foo=bar\n".data)] [("ok".data, Value.string "false".data)]
      rfl (by simp [index, List.lookup])).1,
    (failed_login_writes_nothing (sampleSys [("ok".data, Value.string "false".data)]) sampleFlags
      [("/home/u/.npmrc".data, "foo=bar\n".data)] [("ok".data, Value.string "false".data)]
      rfl (by simp [index, List.lookup])).2.1,
    (failed_login_writes_nothing (sampleSys [("ok".data, Value.string "false".data)]) sampleFlags
      [("/home/u/.npmrc".data, "foo=bar\n".data)] [("ok".data, Value.string "false".data)]
      rfl (by simp [index, List.lookup])).2.2.1,
    (failed_login_writes_nothing (sampleSys [("token".data, Value.string "T".data)]) sampleFlags
      [("/home/u/.npmrc".data, "foo=bar\n".data)] [("token".data, Value.string "T".data)]
      rfl (by simp [index, List.lookup])).2.1⟩


/-- C9, as stated, fails in its consequence for the initial content: a
content with no line starting with `registry=` whose only line holds the
registry line inside it, that line being an auth-token line of the host. The
loop replaces the line, the text joined afterwards no longer holds the
registry line, and the registry line is appended. -/
theorem embedded_registry_as_stated_fails :
    (∀ l ∈ Split "//reg.example.com/:_authToken=registry=https://reg.example.com".data '\n',
      HasPrefix l "registry=".data = false) ∧
    (∃ l ∈ Split "//reg.example.com/:_authToken=registry=https://reg.example.com".data '\n',
      Contains l (registryEntry "https://reg.example.com".data) = true) ∧
    updateLines "reg.example.com".data "T".data "https://reg.example.com".data true
        (Split "//reg.example.com/:_authToken=registry=https://reg.example.com".data '\n') =
      withAuth "reg.example.com".data "T".data "https://reg.example.com".data true
        (Split "//reg.example.com/:_authToken=registry=https://reg.example.com".data '\n') ++
        [registryEntry "https://reg.example.com".data] ∧
    ConfigUpdater "reg.example.com".data "T".data "https://reg.example.com".data true
        "//reg.example.com/:_authToken=registry=https://reg.example.com".data =
      "//reg.example.com/:_authToken=T\nregistry=https://reg.example.com".data := by
  decide

/-- C9, amended. With the flag set, the registry line is appended as the last
line of the slice exactly when the text joined after the loop and the
possible auth-token append does not hold it as a substring.  Hence when a
line of the initial content that does not start with the auth-token prefix of
the host holds the registry line inside it, no registry line is appended; so
it is for the comment line `# registry=https://reg.example.com`, whatever the
host and token.  With the flag unset no registry line is appended. -/
theorem registry_append_iff (host token registry content : Str) :
    (updateLines host token registry true (Split content '\n') =
        withAuth host token registry true (Split content '\n') ++ [registryEntry registry] ↔
      Contains (Join (withAuth host token registry true (Split content '\n')) "\n".data)
        (registryEntry registry) = false) ∧
    (Contains (Join (withAuth host token registry true (Split content '\n')) "\n".data)
        (registryEntry registry) = true →
      updateLines host token registry true (Split content '\n') =
        withAuth host token registry true (Split content '\n')) ∧
    (∀ line ∈ Split content '\n', Contains line (registryEntry registry) = true →
      HasPrefix line (authPrefix host) = false →
      updateLines host token registry true (Split content '\n') =
        withAuth host token registry true (Split content '\n')) ∧
    updateLines host token "https://reg.example.com".data true
        (Split "# registry=https://reg.example.com".data '\n') =
      ["# registry=https://reg.example.com".data, npmrcEntry host token] ∧
    updateLines host token registry false (Split content '\n') =
      withAuth host token registry false (Split content '\n') := by
  have hyes : Contains (Join (withAuth host token registry true (Split content '\n')) "\n".data)
        (registryEntry registry) = true →
      updateLines host token registry true (Split content '\n') =
        withAuth host token registry true (Split content '\n') := by
    intro hc
    simp [updateLines, hc]
  have hline : ∀ (h t r : Str) (ls : List Str), ∀ line ∈ ls,
      Contains line (registryEntry r) = true → HasPrefix line (authPrefix h) = false →
      Contains (Join (withAuth h t r true ls) "\n".data) (registryEntry r) = true := by
    intro h t r ls line hl hc ha
    rw [Contains_iff] at hc ⊢
    have hmem : scanLine h t r true line ∈ withAuth h t r true ls := by
      rw [withAuth_eq, List.mem_append]
      exact Or.inl (List.mem_map.mpr ⟨line, hl, rfl⟩)
    have hin : registryEntry r <:+: scanLine h t r true line := by
      cases hr : HasPrefix line "registry=".data with
      | true =>
        rw [scanLine_registry h t r hr]
      | false =>
        rw [scanLine_other t r ha (fun _ => hr)]
        exact hc
    exact hin.trans (infix_Join_of_mem _ hmem)
  refine ⟨?_, hyes, ?_, ?_, ?_⟩
  · constructor
    · intro heq
      cases hc : Contains (Join (withAuth host token registry true (Split content '\n'))
          "\n".data) (registryEntry registry) with
      | false => rfl
      | true =>
        rw [hyes hc] at heq
        have := congrArg List.length heq
        simp at this
    · intro hc
      simp [updateLines, hc]
  · intro line hl hc ha
    exact hyes (hline host token registry _ line hl hc ha)
  · have hsp : Split "# registry=https://reg.example.com".data '\n' =
        ["# registry=https://reg.example.com".data] := by decide
    have ha : HasPrefix "# registry=https://reg.example.com".data (authPrefix host) = false := by
      simp [HasPrefix, authPrefix, List.isPrefixOf]
    have hr : HasPrefix "# registry=https://reg.example.com".data "registry=".data = false := by
      decide
    have hc := hline host token "https://reg.example.com".data
      ["# registry=https://reg.example.com".data] "# registry=https://reg.example.com".data
      (by simp) (by decide) ha
    have hu : updateLines host token "https://reg.example.com".data true
        ["# registry=https://reg.example.com".data] =
        withAuth host token "https://reg.example.com".data true
          ["# registry=https://reg.example.com".data] := by
      simp [updateLines, hc]
    rw [hsp, hu, withAuth_eq]
    simp [isAuthLine, ha, scanLine_other token "https://reg.example.com".data ha (fun _ => hr)]
  · simp [updateLines]

end NpmLogin
